import Mathlib

/-!
Shallow embedding of the NCOE case-intake core (Go sources: the in-memory
`CaseRepository` mock store, `CaseService`, `DashboardService`, and the
`domain` package).

Modelling conventions:
* Go `string` is modelled as `List Char`; Go string literals are written via
  `String.toList`.
* Go `time.Time` instants are modelled as `Nat`, counted in days since an
  epoch chosen so that a day `t` with `t % 7 = 0` is a Sunday and `t % 7 = 6`
  a Saturday (matching Go's `time.Weekday` numbering where only the set
  {Saturday, Sunday} matters to the code). `AddDate(0,0,1)` is `t + 1`,
  `a.After(b)` is `b < a`, and the zero `time.Time` (`IsZero`) is `0`.
  Timestamps are only ever compared or copied, so day granularity is enough.
* Go `error` results are `Option (List Char)` (`none` = nil error).
* The Go map `cases map[string]*Case` is modelled as a `List Case` of its
  entries; map assignment `m[k] = v` is `mapInsert` (replace the entries with
  that key, or append). The map `counters map[CaseType]int` is a function
  `CaseType → Nat`.
* `time.Now()` (and `time.Now().Year()`) are passed in as explicit `now` /
  `year` parameters.
-/

namespace NCOE

def str (s : String) : List Char := s.toList

/-- Digit character for a single decimal digit (used to model `fmt` integer
formatting). -/
def digitChar (d : Nat) : Char :=
  match d with
  | 0 => '0' | 1 => '1' | 2 => '2' | 3 => '3' | 4 => '4'
  | 5 => '5' | 6 => '6' | 7 => '7' | 8 => '8' | 9 => '9'
  | _ => '*'

/-- Decimal digit characters of `n`, most significant first; fuel-structural
so that it evaluates in the kernel (`fuel = n` always suffices since a number
has at most `n` digits). Auxiliary for `natChars`. -/
def natCharsAux : Nat → Nat → List Char
  | 0, _ => []
  | fuel + 1, n => if n = 0 then [] else natCharsAux fuel (n / 10) ++ [digitChar (n % 10)]

/-- Decimal rendering of a natural number, as produced by Go `fmt` verb `%d`. -/
def natChars (n : Nat) : List Char := if n = 0 then ['0'] else natCharsAux n n

/-- Go `fmt` verb `%03d`: decimal rendering left-padded with zeros to width 3
(wider numbers are printed in full). -/
def pad3 (n : Nat) : List Char :=
  List.replicate (3 - (natChars n).length) '0' ++ natChars n

/-- Reads a digit string back into a number (proof tool: left inverse of
`natChars` and of `pad3`). -/
def charsToNat (l : List Char) : Nat :=
  l.foldl (fun acc c => 10 * acc + (c.toNat - 48)) 0

/-- Model of `domain.CaseType` (part_007 lines 8-13): the four case-type constants. -/
inductive CaseType where
  | AO | EC | EA | PRR
deriving DecidableEq

/-- The underlying string of a `domain.CaseType` value. -/
def CaseType.toChars : CaseType → List Char
  | .AO => str "AO"
  | .EC => str "EC"
  | .EA => str "EA"
  | .PRR => str "PRR"

/-- Model of `domain.CaseStatus`, a Go string type (part_007 line 16); statuses are
unvalidated free-form strings, so the model keeps them as strings. -/
def CaseStatus : Type := List Char
deriving DecidableEq

def StatusSubmitted : CaseStatus := str "submitted"
def StatusUnderReview : CaseStatus := str "under_review"
def StatusInvestigation : CaseStatus := str "investigation"
def StatusPendingHearing : CaseStatus := str "pending_hearing"
def StatusDraftPrepared : CaseStatus := str "draft_prepared"
def StatusPublished : CaseStatus := str "published"
def StatusClosed : CaseStatus := str "closed"
def StatusWithdrawn : CaseStatus := str "withdrawn"

/-- Model of `domain.Case` (part_007 lines 30-71), field for field. Defaults are the
Go zero values. `Type'` stands for the Go field `Type` (a Lean keyword). -/
structure Case where
  ID : List Char := []
  CaseNumber : List Char := []
  Type' : CaseType := .AO
  Status : CaseStatus := []
  SubmitterName : List Char := []
  SubmitterTitle : List Char := []
  SubmitterAgency : List Char := []
  SubmitterEmail : List Char := []
  SubmitterPhone : List Char := []
  SubjectName : List Char := []
  SubjectTitle : List Char := []
  SubjectAgency : List Char := []
  Summary : List Char := []
  Description : List Char := []
  StatuteCitations : List Char := []
  SubmittedAt : Nat := 0
  DueDate : Nat := 0
  ClosedAt : Option Nat := none
  PublishedAt : Option Nat := none
  AssignedTo : List Char := []
  AssignedToName : List Char := []
  IsPublic : Bool := false
  IsConfidential : Bool := false
  Priority : List Char := []
  Tags : List (List Char) := []
  CreatedAt : Nat := 0
  UpdatedAt : Nat := 0
deriving DecidableEq

/-- Model of `Case.IsOverdue` (part_007 lines 140-145): zero due-date is never overdue;
otherwise overdue iff now is after the due date and the status is neither
closed nor published. -/
def Case.IsOverdue (c : Case) (now : Nat) : Bool :=
  if c.DueDate = 0 then false
  else decide (c.DueDate < now) && decide (c.Status ≠ StatusClosed) && decide (c.Status ≠ StatusPublished)

/-- Model of `domain.Deadline` (part_007 lines 110-121). -/
structure Deadline where
  ID : List Char := []
  CaseID : List Char := []
  CaseNumber : List Char := []
  CaseType : CaseType := .AO
  Summary : List Char := []
  Type' : List Char := []
  DueDate : Nat := 0
  Status : List Char := []
  ReminderSent : Bool := false
  CompletedAt : Option Nat := none
deriving DecidableEq

/-- Go map assignment `r.cases[c.ID] = c`: replace the entries whose key
equals `c.ID`, or append the new entry when the key is absent. -/
def mapInsert (cases : List Case) (c : Case) : List Case :=
  if cases.any (fun x => decide (x.ID = c.ID)) then
    cases.map (fun x => if x.ID = c.ID then c else x)
  else cases ++ [c]

/-- The in-memory `CaseRepository` (part_006 lines 540-544): the `cases` map
(as its entry list) and the type-scoped counters map. The `sync.RWMutex` is
not part of the state; it makes each repository operation atomic, which the
model reflects by treating every operation as one step. -/
structure CaseRepository where
  cases : List Case
  counters : CaseType → Nat

/-- Model of `CaseRepository.Create` (part_006 lines 735-740): `r.cases[c.ID] = c;
return nil`. It never fails and does not check for an existing ID. -/
def CaseRepository.Create (r : CaseRepository) (c : Case) :
    CaseRepository × Option (List Char) :=
  ({ r with cases := mapInsert r.cases c }, none)

/-- Model of `CaseRepository.Update` (part_006 lines 742-750): error when the ID is
absent, otherwise `r.cases[c.ID] = c`. -/
def CaseRepository.Update (r : CaseRepository) (c : Case) :
    CaseRepository × Option (List Char) :=
  if r.cases.any (fun x => decide (x.ID = c.ID)) then
    ({ r with cases := mapInsert r.cases c }, none)
  else (r, some (str "case not found: " ++ c.ID))

/-- Model of `CaseRepository.GetByID` (part_006 lines 752-756): map lookup, `nil` on
miss. -/
def CaseRepository.GetByID (r : CaseRepository) (id : List Char) : Option Case :=
  r.cases.find? (fun c => decide (c.ID = id))

/-- Go `strings.Contains hay needle`: some position of `hay` starts with
`needle`. -/
def containsSub (needle : List Char) : List Char → Bool
  | [] => needle.isPrefixOf []
  | c :: rest => needle.isPrefixOf (c :: rest) || containsSub needle rest

/-- Go `strings.ToLower`, character by character. -/
def strToLower (s : List Char) : List Char := s.map Char.toLower

/-- The deadline record built for a case inside `CaseRepository.GetDeadlines`
(part_006 lines 830-845), including the live status computation:
`overdue` when now is past the due date, else `due_soon` within 7 days
(`time.Until(due).Hours() < 7*24`), else `upcoming`. -/
def mkDeadline (now : Nat) (c : Case) : Deadline :=
  { ID := str "dl_" ++ c.ID
    CaseID := c.ID
    CaseNumber := c.CaseNumber
    CaseType := c.Type'
    Summary := c.Summary
    Type' := str "response_due"
    DueDate := c.DueDate
    Status :=
      if c.DueDate < now then str "overdue"
      else if c.DueDate - now < 7 then str "due_soon"
      else str "upcoming" }

/-- Loop body of `CaseRepository.GetDeadlines` (part_006 lines 827-850):
append a deadline for each case with a non-zero due date and non-closed
status; after every case, stop once `limit` entries have been collected. -/
def getDeadlinesAux (now limit : Nat) : List Case → List Deadline → List Deadline
  | [], acc => acc
  | c :: rest, acc =>
    let acc' :=
      if c.DueDate ≠ 0 ∧ c.Status ≠ StatusClosed then acc ++ [mkDeadline now c]
      else acc
    if limit ≤ acc'.length then acc' else getDeadlinesAux now limit rest acc'

/-- Model of `CaseRepository.GetDeadlines` (part_006 lines 823-852). -/
def CaseRepository.GetDeadlines (r : CaseRepository) (now limit : Nat) :
    List Deadline :=
  getDeadlinesAux now limit r.cases []

/-- Model of `CaseRepository.NextCaseNumber` (part_006 lines 897-904): under the lock,
increment the type's counter and format
`fmt.Sprintf("%s-%d-%03d", caseType, year, counter)`. `year` stands for
`time.Now().Year()`. -/
def CaseRepository.NextCaseNumber (r : CaseRepository) (caseType : CaseType)
    (year : Nat) : List Char × CaseRepository :=
  let counters' := fun t => if t = caseType then r.counters t + 1 else r.counters t
  (caseType.toChars ++ ['-'] ++ natChars year ++ ['-'] ++ pad3 (counters' caseType),
   { r with counters := counters' })

/-- The string `NextCaseNumber` builds for type `T`, year `year` and
(post-increment) counter value `n`. -/
def formatCaseNumber (T : CaseType) (year n : Nat) : List Char :=
  T.toChars ++ ['-'] ++ natChars year ++ ['-'] ++ pad3 n

/-- Counter seeding in `CaseRepository.seedDemoData` (part_006 lines 729-732).
(The ten demo case records seeded alongside do not influence
`NextCaseNumber` and are not part of this definition.) -/
def seedCounters : CaseType → Nat
  | .AO => 42
  | .EC => 18
  | .EA => 156
  | .PRR => 89

/-- Model of `CaseRepository.List` (part_006 lines 769-787): keep the cases passing
all three filters; an empty filter string is a wildcard, the text query is a
case-insensitive substring match on case number + summary + submitter name.
(Declared after the other repository operations only so that the name
`CaseRepository.List` does not shadow `List` in their signatures.) -/
def CaseRepository.List (r : CaseRepository)
    (typeFilter statusFilter query : List Char) : List Case :=
  r.cases.filter (fun c =>
    (decide (typeFilter = []) || decide (c.Type'.toChars = typeFilter)) &&
    (decide (statusFilter = []) || decide (c.Status = statusFilter)) &&
    (decide (query = []) ||
      containsSub (strToLower query)
        (strToLower (c.CaseNumber ++ c.Summary ++ c.SubmitterName))))

/-- Day `t` is a Saturday or Sunday (Go `Weekday()` is `t % 7` with Sunday
`= 0`, Saturday `= 6`). -/
def isWeekend (t : Nat) : Bool := decide (t % 7 = 0) || decide (t % 7 = 6)

/-- The `for added < days` loop of `calculateBusinessDays`
(src/internal/service/auth.go lines 329-336): advance `result` one calendar
day per iteration and count the day when it is not a weekend, until `days`
days are counted. `fuel` bounds the iteration count so the recursion is
structural; `calculateBusinessDays` passes `7 * days + 7` fuel, more than the
loop can ever use (each 7 consecutive iterations count at least 5 days). -/
def businessLoop : Nat → Nat → Nat → Nat → Nat
  | 0, _, result, _ => result
  | fuel + 1, days, result, added =>
    if added < days then
      if isWeekend (result + 1) then businessLoop fuel days (result + 1) added
      else businessLoop fuel days (result + 1) (added + 1)
    else result

/-- Model of `calculateBusinessDays` (src/internal/service/auth.go lines 327-338). -/
def calculateBusinessDays (start : Nat) (days : Nat) : Nat :=
  businessLoop (7 * days + 7) days start 0

/-- Model of `CaseService.Create` (src/internal/service/auth.go lines 242-263):
allocate the case number (bumping the counter), assign a fresh ID from the
clock (`fmt.Sprintf("case_%d", time.Now().UnixNano())`), stamp
creation/update times, compute the due date for AO (45 business days) and
PRR (5 business days) only, then store via `CaseRepository.Create` (which
never fails). Returns the updated repository, the stored record, the
returned case number and the error. `now` stands for the `time.Now()` calls
(sampled once in the model) and `year` for `time.Now().Year()`. -/
def CaseService.Create (r : CaseRepository) (c : Case) (now year : Nat) :
    CaseRepository × Case × List Char × Option (List Char) :=
  let (num, r1) := r.NextCaseNumber c.Type' year
  let c1 : Case :=
    { c with
      CaseNumber := num
      ID := str "case_" ++ natChars now
      CreatedAt := now
      UpdatedAt := now
      DueDate :=
        match c.Type' with
        | .AO => calculateBusinessDays c.SubmittedAt 45
        | .PRR => calculateBusinessDays c.SubmittedAt 5
        | _ => c.DueDate }
  let (r2, err) := r1.Create c1
  (r2, c1, num, err)

/-- Model of `CaseService.UpdateStatus` (src/internal/service/auth.go lines 316-324):
`NotFound` error when the ID is absent; otherwise set the status (any value,
unvalidated), stamp the update time, and persist via `CaseRepository.Update`.
Returns the updated repository and the error. -/
def CaseService.UpdateStatus (r : CaseRepository) (caseID : List Char)
    (status : CaseStatus) (now : Nat) : CaseRepository × Option (List Char) :=
  match r.GetByID caseID with
  | none => (r, some (str "case not found: " ++ caseID))
  | some c => r.Update { c with Status := status, UpdatedAt := now }

/-- The count fields of `domain.CaseStats` (part_007 lines 148-158). The
display fields (`ByType`, `ByStatus`, `RecentCases`, `RecentActivity`,
`UpcomingDeadlines`) are not referenced by any verified claim and are not
embedded. -/
structure CaseStats where
  TotalOpen : Nat
  TotalPending : Nat
  TotalOverdue : Nat
  TotalClosed : Nat
deriving DecidableEq

/-- Loop body of `DashboardService.GetStats` (src/internal/service/auth.go
lines 127-149), restricted to the four counters: the `switch` on status
(closed / submitted / default) and the `IsOverdue` check. The accumulator is
(totalOpen, totalPending, totalOverdue, totalClosed). -/
def statsLoop (now : Nat) (acc : Nat × Nat × Nat × Nat) (c : Case) :
    Nat × Nat × Nat × Nat :=
  let (o, p, v, cl) := acc
  let (o, p, cl) :=
    if c.Status = StatusClosed then (o, p, cl + 1)
    else if c.Status = StatusSubmitted then (o + 1, p + 1, cl)
    else (o + 1, p, cl)
  if c.IsOverdue now then (o, p, v + 1, cl) else (o, p, v, cl)

/-- Model of `DashboardService.GetStats` (src/internal/service/auth.go lines 115-194),
count fields only: scan `List("", "", "")`, accumulate the four counters,
then blend in the cosmetic base stats (open +32, closed +150). -/
def DashboardService.GetStats (r : CaseRepository) (now : Nat) : CaseStats :=
  let allCases := r.List [] [] []
  let (o, p, v, cl) := allCases.foldl (statsLoop now) (0, 0, 0, 0)
  { TotalOpen := o + 32
    TotalPending := p
    TotalOverdue := v
    TotalClosed := cl + 150 }

/-- A serialized execution of `NextCaseNumber` calls for one type: because
the whole body of `NextCaseNumber` runs under `r.mu.Lock()`, every concurrent
execution is equivalent to the calls running one after another in some order;
`ys` lists the `time.Now().Year()` value each call observes, in that order.
Returns the list of returned strings and the final repository. -/
def runCalls (r : CaseRepository) (T : CaseType) : List Nat →
    List (List Char) × CaseRepository
  | [] => ([], r)
  | y :: ys =>
    let (s, r1) := r.NextCaseNumber T y
    let (rest, r2) := runCalls r1 T ys
    (s :: rest, r2)

/-- The numeric sequence suffix of a rendered case number: the decimal value
of the characters after the last dash. -/
def numericSuffix (s : List Char) : Nat :=
  charsToNat ((s.reverse.takeWhile (fun c => decide (c ≠ '-'))).reverse)

/-- Decidable match against the documented case-number pattern
`^(AO|EC|EA|PRR)-\d{4}-\d{3}$`: one of the four prefixes, then `-`, exactly
four digits, `-`, exactly three digits. `tailOK` checks the `-\d{4}-\d{3}$`
part. -/
def tailOK (l : List Char) : Bool :=
  match l with
  | c1 :: a :: b :: c :: d :: c2 :: e :: f :: g :: [] =>
    decide (c1 = '-') && decide (c2 = '-') &&
    a.isDigit && b.isDigit && c.isDigit && d.isDigit &&
    e.isDigit && f.isDigit && g.isDigit
  | _ => false

def matchesCaseNumberFormat (s : List Char) : Bool :=
  ((str "AO").isPrefixOf s && tailOK (s.drop 2)) ||
  ((str "EC").isPrefixOf s && tailOK (s.drop 2)) ||
  ((str "EA").isPrefixOf s && tailOK (s.drop 2)) ||
  ((str "PRR").isPrefixOf s && tailOK (s.drop 3))

/-! ### Decimal rendering lemmas -/

theorem charsToNat_append_one (l : List Char) (c : Char) :
    charsToNat (l ++ [c]) = 10 * charsToNat l + (c.toNat - 48) := by
  simp [charsToNat, List.foldl_append]

theorem digitChar_toNat : ∀ d, d < 10 → (digitChar d).toNat - 48 = d := by decide

theorem charsToNat_natCharsAux :
    ∀ fuel n, n ≤ fuel → charsToNat (natCharsAux fuel n) = n := by
  intro fuel
  induction fuel with
  | zero => intro n hn; interval_cases n; simp [natCharsAux, charsToNat]
  | succ fuel ih =>
    intro n hn
    by_cases h0 : n = 0
    · simp [natCharsAux, h0, charsToNat]
    · have hdiv : n / 10 ≤ fuel := by
        have : n / 10 < n := Nat.div_lt_self (Nat.pos_of_ne_zero h0) (by norm_num)
        omega
      have hmod : n % 10 < 10 := Nat.mod_lt _ (by norm_num)
      simp only [natCharsAux, h0, if_false]
      rw [charsToNat_append_one, ih _ hdiv, digitChar_toNat _ hmod]
      omega

theorem charsToNat_natChars (n : Nat) : charsToNat (natChars n) = n := by
  by_cases h0 : n = 0
  · simp [natChars, h0, charsToNat]
  · simp only [natChars, h0, if_false]
    exact charsToNat_natCharsAux n n le_rfl

theorem charsToNat_replicate_zero (k : Nat) (l : List Char) :
    charsToNat (List.replicate k '0' ++ l) = charsToNat l := by
  induction k with
  | zero => simp
  | succ k ih =>
    have : List.replicate (k + 1) '0' ++ l = '0' :: (List.replicate k '0' ++ l) := by
      simp [List.replicate_succ]
    rw [this]
    simpa [charsToNat] using ih

theorem charsToNat_pad3 (n : Nat) : charsToNat (pad3 n) = n := by
  rw [pad3, charsToNat_replicate_zero, charsToNat_natChars]

theorem natChars_injective {a b : Nat} (h : natChars a = natChars b) : a = b := by
  have := congrArg charsToNat h
  rwa [charsToNat_natChars, charsToNat_natChars] at this

theorem pad3_injective {a b : Nat} (h : pad3 a = pad3 b) : a = b := by
  have := congrArg charsToNat h
  rwa [charsToNat_pad3, charsToNat_pad3] at this

theorem digitChar_isDigit : ∀ d, d < 10 → (digitChar d).isDigit = true := by decide

theorem natCharsAux_all_digits :
    ∀ fuel n c, c ∈ natCharsAux fuel n → c.isDigit = true := by
  intro fuel
  induction fuel with
  | zero => intro n c hc; simp [natCharsAux] at hc
  | succ fuel ih =>
    intro n c hc
    by_cases h0 : n = 0
    · simp [natCharsAux, h0] at hc
    · simp only [natCharsAux, h0, if_false, List.mem_append, List.mem_singleton] at hc
      rcases hc with hc | hc
      · exact ih _ _ hc
      · subst hc; exact digitChar_isDigit _ (Nat.mod_lt _ (by norm_num))

theorem natChars_all_digits {n : Nat} {c : Char} (hc : c ∈ natChars n) :
    c.isDigit = true := by
  by_cases h0 : n = 0
  · simp [natChars, h0] at hc; subst hc; decide
  · simp only [natChars, h0, if_false] at hc
    exact natCharsAux_all_digits _ _ _ hc

theorem pad3_all_digits {n : Nat} {c : Char} (hc : c ∈ pad3 n) :
    c.isDigit = true := by
  rcases List.mem_append.mp hc with h | h
  · rcases List.eq_of_mem_replicate h with rfl; decide
  · exact natChars_all_digits h

theorem natCharsAux_len_le :
    ∀ fuel n k, n ≤ fuel → n < 10 ^ k → (natCharsAux fuel n).length ≤ k := by
  intro fuel
  induction fuel with
  | zero => intro n k hn _; interval_cases n; simp [natCharsAux]
  | succ fuel ih =>
    intro n k hn hk
    by_cases h0 : n = 0
    · simp [natCharsAux, h0]
    · have hkpos : 0 < k := by
        rcases Nat.eq_zero_or_pos k with rfl | h
        · simp at hk; omega
        · exact h
      have hdiv : n / 10 ≤ fuel := by
        have : n / 10 < n := Nat.div_lt_self (Nat.pos_of_ne_zero h0) (by norm_num)
        omega
      have hdivk : n / 10 < 10 ^ (k - 1) := by
        rw [Nat.div_lt_iff_lt_mul (by norm_num)]
        calc n < 10 ^ k := hk
        _ = 10 ^ (k - 1) * 10 := by
            rw [← pow_succ]; congr 1; omega
      simp only [natCharsAux, h0, if_false, List.length_append, List.length_singleton]
      have := ih (n / 10) (k - 1) hdiv hdivk
      omega

theorem natCharsAux_len_ge :
    ∀ fuel n k, n ≤ fuel → 10 ^ k ≤ n → k + 1 ≤ (natCharsAux fuel n).length := by
  intro fuel
  induction fuel with
  | zero =>
    intro n k hn hk
    exfalso
    have := Nat.one_le_two_pow (n := k)
    have h1 : (1 : Nat) ≤ 10 ^ k := Nat.one_le_pow _ _ (by norm_num)
    omega
  | succ fuel ih =>
    intro n k hn hk
    have h0 : n ≠ 0 := by
      have h1 : (1 : Nat) ≤ 10 ^ k := Nat.one_le_pow _ _ (by norm_num)
      omega
    have hdiv : n / 10 ≤ fuel := by
      have : n / 10 < n := Nat.div_lt_self (Nat.pos_of_ne_zero h0) (by norm_num)
      omega
    simp only [natCharsAux, h0, if_false, List.length_append, List.length_singleton]
    rcases Nat.eq_zero_or_pos k with rfl | hkpos
    · omega
    · have hdivk : 10 ^ (k - 1) ≤ n / 10 := by
        rw [Nat.le_div_iff_mul_le (by norm_num : (0:Nat) < 10)]
        calc 10 ^ (k - 1) * 10 = 10 ^ k := by rw [← pow_succ]; congr 1; omega
        _ ≤ n := hk
      have := ih (n / 10) (k - 1) hdiv hdivk
      omega

theorem natChars_len_four {y : Nat} (h1 : 1000 ≤ y) (h2 : y < 10000) :
    (natChars y).length = 4 := by
  have h0 : y ≠ 0 := by omega
  simp only [natChars, h0, if_false]
  have hle := natCharsAux_len_le y y 4 le_rfl (by norm_num; omega)
  have hge := natCharsAux_len_ge y y 3 le_rfl (by norm_num; omega)
  omega

theorem natChars_len_le_three {n : Nat} (h : n ≤ 999) : (natChars n).length ≤ 3 := by
  by_cases h0 : n = 0
  · simp [natChars, h0]
  · simp only [natChars, h0, if_false]
    exact natCharsAux_len_le n n 3 le_rfl (by omega)

theorem pad3_length {n : Nat} (h : n ≤ 999) : (pad3 n).length = 3 := by
  have := natChars_len_le_three h
  have hpos : 1 ≤ (natChars n).length := by
    by_cases h0 : n = 0
    · simp [natChars, h0]
    · simp only [natChars, h0, if_false]
      have := natCharsAux_len_ge n n 0 le_rfl (by simpa using Nat.pos_of_ne_zero h0)
      omega
  simp only [pad3, List.length_append, List.length_replicate]
  omega

/-! ### Numeric suffix extraction -/

theorem digitChar_ne_dash : ∀ d, d < 10 → digitChar d ≠ '-' := by decide

theorem natChars_ne_dash {n : Nat} {c : Char} (hc : c ∈ natChars n) : c ≠ '-' := by
  intro h
  subst h
  have := natChars_all_digits hc
  simp at this

theorem pad3_ne_dash {n : Nat} {c : Char} (hc : c ∈ pad3 n) : c ≠ '-' := by
  intro h
  subst h
  have := pad3_all_digits hc
  simp at this

theorem takeWhile_append_cons (p : Char → Bool) (A : List Char) (x : Char)
    (B : List Char) (hA : ∀ a ∈ A, p a = true) (hx : p x = false) :
    List.takeWhile p (A ++ x :: B) = A := by
  induction A with
  | nil => simp [List.takeWhile, hx]
  | cons a A ih =>
    have ha : p a = true := hA a (by simp)
    rw [List.cons_append, List.takeWhile_cons_of_pos ha,
      ih (fun b hb => hA b (by simp [hb]))]

theorem numericSuffix_format (T : CaseType) (year n : Nat) :
    numericSuffix (formatCaseNumber T year n) = n := by
  have hrev : (formatCaseNumber T year n).reverse =
      (pad3 n).reverse ++ '-' :: ((natChars year).reverse ++ '-' :: T.toChars.reverse) := by
    simp [formatCaseNumber, List.reverse_append]
  rw [numericSuffix, hrev, takeWhile_append_cons]
  · simp [charsToNat_pad3]
  · intro a ha
    simp only [List.mem_reverse] at ha
    simpa using pad3_ne_dash ha
  · simp

/-- Distinct post-increment counter values yield distinct case-number
strings, whatever the years and types involved. -/
theorem formatCaseNumber_ne {T1 T2 : CaseType} {y1 y2 n1 n2 : Nat}
    (h : n1 ≠ n2) : formatCaseNumber T1 y1 n1 ≠ formatCaseNumber T2 y2 n2 := by
  intro he
  apply h
  have := congrArg numericSuffix he
  rwa [numericSuffix_format, numericSuffix_format] at this

/-! ### Case-number allocation -/

theorem nextCaseNumber_fst (r : CaseRepository) (T : CaseType) (y : Nat) :
    (r.NextCaseNumber T y).1 = formatCaseNumber T y (r.counters T + 1) := by
  simp [CaseRepository.NextCaseNumber, formatCaseNumber]

theorem nextCaseNumber_counters (r : CaseRepository) (T : CaseType) (y : Nat) :
    (r.NextCaseNumber T y).2.counters T = r.counters T + 1 := by
  simp [CaseRepository.NextCaseNumber]

theorem runCalls_cons (r : CaseRepository) (T : CaseType) (y : Nat) (ys : List Nat) :
    runCalls r T (y :: ys) =
      ((r.NextCaseNumber T y).1 :: (runCalls (r.NextCaseNumber T y).2 T ys).1,
       (runCalls (r.NextCaseNumber T y).2 T ys).2) := rfl

theorem runCalls_counters (T : CaseType) :
    ∀ (ys : List Nat) (r : CaseRepository),
      (runCalls r T ys).2.counters T = r.counters T + ys.length := by
  intro ys
  induction ys with
  | nil => intro r; simp [runCalls]
  | cons y ys ih =>
    intro r
    rw [runCalls_cons]
    simp only [List.length_cons]
    rw [ih, nextCaseNumber_counters]
    omega

theorem runCalls_mem (T : CaseType) :
    ∀ (ys : List Nat) (r : CaseRepository) (s : List Char),
      s ∈ (runCalls r T ys).1 →
      ∃ y n, r.counters T < n ∧ s = formatCaseNumber T y n := by
  intro ys
  induction ys with
  | nil => intro r s hs; simp [runCalls] at hs
  | cons y ys ih =>
    intro r s hs
    rw [runCalls_cons] at hs
    rcases List.mem_cons.mp hs with h | h
    · exact ⟨y, r.counters T + 1, by omega, by rw [h, nextCaseNumber_fst]⟩
    · rcases ih _ _ h with ⟨y', n, hn, hsn⟩
      rw [nextCaseNumber_counters] at hn
      exact ⟨y', n, by omega, hsn⟩

theorem runCalls_get? (T : CaseType) :
    ∀ (ys : List Nat) (r : CaseRepository) (i : Nat),
      ((runCalls r T ys).1).get? i =
        (ys.get? i).map (fun y => formatCaseNumber T y (r.counters T + i + 1)) := by
  intro ys
  induction ys with
  | nil => intro r i; simp [runCalls]
  | cons y ys ih =>
    intro r i
    rw [runCalls_cons]
    match i with
    | 0 => simp [nextCaseNumber_fst]
    | i + 1 =>
      simp only [List.get?_cons_succ]
      rw [ih, nextCaseNumber_counters]
      have harith : r.counters T + 1 + i + 1 = r.counters T + (i + 1) + 1 := by omega
      rw [harith]

/-- C1: no case number is ever issued twice for a type. Every body of
`NextCaseNumber` runs while holding `r.mu`, so each call is atomic and any
concurrent execution of calls for type `T` is equivalent to the calls
running sequentially in some order, each observing some clock year; for
every such linearized execution, the returned strings are pairwise
distinct. -/
theorem claim_C1_nextCaseNumber_unique (T : CaseType) :
    ∀ (ys : List Nat) (r : CaseRepository),
      ((runCalls r T ys).1).Pairwise (fun a b => a ≠ b) := by
  intro ys
  induction ys with
  | nil => intro r; simp [runCalls]
  | cons y ys ih =>
    intro r
    rw [runCalls_cons]
    refine List.Pairwise.cons ?_ (ih _)
    intro s hs
    rcases runCalls_mem T ys _ s hs with ⟨y', n, hn, rfl⟩
    rw [nextCaseNumber_counters] at hn
    rw [nextCaseNumber_fst]
    exact formatCaseNumber_ne (by omega)

/-! ### Store lemmas -/

/-- After a map assignment, looking up the assigned key finds the new
record. -/
theorem getByID_mapInsert (cases : List Case) (c : Case) {id : List Char}
    (hid : c.ID = id) :
    (mapInsert cases c).find? (fun x => decide (x.ID = id)) = some c := by
  induction cases with
  | nil =>
    simp [mapInsert, List.find?, hid]
  | cons x xs ih =>
    by_cases hx : x.ID = c.ID
    · have hany : (x :: xs).any (fun z => decide (z.ID = c.ID)) = true := by
        simp [List.any_cons, hx]
      simp only [mapInsert, hany, if_true, List.map_cons, if_pos hx]
      simp [List.find?, hid]
    · have hstep : mapInsert (x :: xs) c = x :: mapInsert xs c := by
        by_cases hxs : xs.any (fun z => decide (z.ID = c.ID)) = true
        · have hany : (x :: xs).any (fun z => decide (z.ID = c.ID)) = true := by
            simp [List.any_cons, hxs]
          simp [mapInsert, hany, hxs, if_neg hx]
        · have hany : (x :: xs).any (fun z => decide (z.ID = c.ID)) = false := by
            simp only [List.any_cons, Bool.or_eq_false_iff]
            constructor
            · simpa using hx
            · simpa using hxs
          simp [mapInsert, hany, hxs]
      rw [hstep]
      have hxid : (decide (x.ID = id)) = false := by
        simp only [decide_eq_false_iff_not]
        rw [← hid]
        exact hx
      simp only [List.find?, hxid]
      exact ih

/-- With empty filters, `List` returns every stored case. -/
theorem list_empty_filters (r : CaseRepository) : r.List [] [] [] = r.cases := by
  simp [CaseRepository.List]

/-! ### Business-day arithmetic -/

theorem isWeekend_add_seven (t : Nat) : isWeekend (t + 7) = isWeekend t := by
  simp [isWeekend, Nat.add_mod_right]

theorem businessLoop_add_seven :
    ∀ (fuel days result added : Nat),
      businessLoop fuel days (result + 7) added = businessLoop fuel days result added + 7 := by
  intro fuel
  induction fuel with
  | zero => intro days result added; simp [businessLoop]
  | succ fuel ih =>
    intro days result added
    simp only [businessLoop]
    by_cases h : added < days
    · simp only [if_pos h]
      have h7 : result + 7 + 1 = result + 1 + 7 := by omega
      rw [h7, isWeekend_add_seven]
      by_cases hw : isWeekend (result + 1)
      · simp only [hw, if_true]; exact ih _ _ _
      · simp only [hw, Bool.false_eq_true, if_false]; exact ih _ _ _
    · simp [if_neg h]

theorem businessLoop_shift (fuel days added : Nat) :
    ∀ (q s : Nat),
      businessLoop fuel days (7 * q + s) added = businessLoop fuel days s added + 7 * q := by
  intro q
  induction q with
  | zero => intro s; simp
  | succ q ih =>
    intro s
    have h : 7 * (q + 1) + s = (7 * q + s) + 7 := by ring
    rw [h, businessLoop_add_seven, ih]
    ring

theorem businessLoop_residues_45 :
    ∀ s, s < 7 → s + 45 < businessLoop 322 45 s 0 ∧ businessLoop 322 45 s 0 ≤ s + 67 := by
  decide

/-- Bounds: `calculateBusinessDays _ 45` lands strictly more than 45 and at most 67
calendar days out. -/
theorem calculateBusinessDays_45_bounds (start : Nat) :
    start + 45 < calculateBusinessDays start 45 ∧
      calculateBusinessDays start 45 ≤ start + 67 := by
  have hsplit : 7 * (start / 7) + start % 7 = start := Nat.div_add_mod start 7
  have hres := businessLoop_residues_45 (start % 7) (Nat.mod_lt _ (by norm_num))
  have : calculateBusinessDays start 45 =
      businessLoop 322 45 (start % 7) 0 + 7 * (start / 7) := by
    rw [calculateBusinessDays]
    have h322 : 7 * 45 + 7 = 322 := by norm_num
    rw [h322]
    conv_lhs => rw [← hsplit]
    rw [businessLoop_shift]
  omega

/-! ### Substring matching -/

theorem isPrefixOf_iff :
    ∀ (l m : List Char), l.isPrefixOf m = true ↔ ∃ t, m = l ++ t := by
  intro l
  induction l with
  | nil => intro m; simp [List.isPrefixOf]
  | cons a l ih =>
    intro m
    match m with
    | [] => simp [List.isPrefixOf]
    | b :: m =>
      simp only [List.isPrefixOf, Bool.and_eq_true, beq_iff_eq, ih]
      constructor
      · rintro ⟨rfl, t, rfl⟩
        exact ⟨t, rfl⟩
      · rintro ⟨t, ht⟩
        rw [List.cons_append] at ht
        rcases List.cons_eq_cons.mp ht with ⟨rfl, rfl⟩
        exact ⟨rfl, t, rfl⟩

/-- Characterization: `strings.Contains` holds exactly when the needle occurs contiguously
somewhere in the haystack. -/
theorem containsSub_iff (needle : List Char) :
    ∀ hay, containsSub needle hay = true ↔ ∃ pre post, hay = pre ++ needle ++ post := by
  intro hay
  induction hay with
  | nil =>
    simp only [containsSub, isPrefixOf_iff]
    constructor
    · rintro ⟨t, ht⟩
      exact ⟨[], t, by simpa using ht⟩
    · rintro ⟨pre, post, h⟩
      have hpre : pre = [] := by
        rcases List.append_eq_nil.mp (List.append_eq_nil.mp h.symm).1 with ⟨h1, _⟩
        exact h1
      refine ⟨post, ?_⟩
      subst hpre
      simpa using h
  | cons c rest ih =>
    simp only [containsSub, Bool.or_eq_true, isPrefixOf_iff, ih]
    constructor
    · rintro (⟨t, ht⟩ | ⟨pre, post, h⟩)
      · exact ⟨[], t, by simpa using ht⟩
      · exact ⟨c :: pre, post, by simp [h]⟩
    · rintro ⟨pre, post, h⟩
      match pre with
      | [] =>
        left
        exact ⟨post, by simpa using h⟩
      | p :: pre =>
        right
        rw [List.cons_append, List.cons_append] at h
        rcases List.cons_eq_cons.mp h with ⟨rfl, hrest⟩
        exact ⟨pre, post, by simpa using hrest⟩

/-! ### Dashboard lemmas -/

/-- The third accumulator component of the stats loop counts exactly the
overdue cases. -/
theorem statsLoop_overdue (now : Nat) :
    ∀ (l : List Case) (a b v c : Nat),
      (l.foldl (statsLoop now) (a, b, v, c)).2.2.1 =
        v + l.countP (fun x => x.IsOverdue now) := by
  intro l
  induction l with
  | nil => intro a b v c; simp
  | cons x l ih =>
    intro a b v c
    rw [List.foldl_cons, List.countP_cons]
    have hv' : (statsLoop now (a, b, v, c) x).2.2.1 =
        v + (if x.IsOverdue now then 1 else 0) := by
      simp only [statsLoop]
      split_ifs <;> simp
    rcases hst : statsLoop now (a, b, v, c) x with ⟨o, p, v', cl⟩
    rw [hst] at hv'
    simp only at hv'
    rw [ih]
    by_cases hov : x.IsOverdue now
    · simp only [hov, if_true] at hv'
      simp only [hov, if_true]
      omega
    · rw [if_neg hov] at hv'
      simp only [Bool.not_eq_true] at hov
      simp only [hov, Bool.false_eq_true, if_false]
      omega

/-! ### Deadline lemmas -/

theorem getDeadlinesAux_mem (now limit : Nat) :
    ∀ (l : List Case) (acc : List Deadline) (d : Deadline),
      d ∈ getDeadlinesAux now limit l acc →
      d ∈ acc ∨ ∃ c, c ∈ l ∧ c.DueDate ≠ 0 ∧ c.Status ≠ StatusClosed ∧ d = mkDeadline now c := by
  intro l
  induction l with
  | nil => intro acc d hd; left; simpa [getDeadlinesAux] using hd
  | cons c rest ih =>
    intro acc d hd
    simp only [getDeadlinesAux] at hd
    by_cases hc : c.DueDate ≠ 0 ∧ c.Status ≠ StatusClosed
    · rw [if_pos hc] at hd
      by_cases hstop : limit ≤ (acc ++ [mkDeadline now c]).length
      · rw [if_pos hstop] at hd
        rcases List.mem_append.mp hd with h | h
        · left; exact h
        · right
          exact ⟨c, by simp, hc.1, hc.2, by simpa using h⟩
      · rw [if_neg hstop] at hd
        rcases ih _ _ hd with h | ⟨c0, hc0, h1, h2, h3⟩
        · rcases List.mem_append.mp h with h | h
          · left; exact h
          · right
            exact ⟨c, by simp, hc.1, hc.2, by simpa using h⟩
        · right
          exact ⟨c0, by simp [hc0], h1, h2, h3⟩
    · rw [if_neg hc] at hd
      by_cases hstop : limit ≤ acc.length
      · rw [if_pos hstop] at hd
        left; exact hd
      · rw [if_neg hstop] at hd
        rcases ih _ _ hd with h | ⟨c0, hc0, h1, h2, h3⟩
        · left; exact h
        · right
          exact ⟨c0, by simp [hc0], h1, h2, h3⟩

/-! ### Concrete fixtures for witnesses and counterexamples -/

/-- A repository with no stored cases and the seeded counters. -/
def repo0 : CaseRepository := { cases := [], counters := seedCounters }

def caseOld : Case := { ID := str "1", Summary := str "old" }

def caseNew : Case := { ID := str "1", Summary := str "new" }

def pubCase : Case := { ID := str "3", Status := StatusPublished, DueDate := 5 }

def dueCase : Case := { ID := str "2", Status := StatusSubmitted, DueDate := 5 }

def zeroDueCase : Case := { ID := str "4", Status := StatusSubmitted, DueDate := 0 }

def aoCase : Case :=
  { Type' := .AO, Status := StatusSubmitted, SubmitterName := str "John Test",
    SubmittedAt := 10 }

def ecCase : Case :=
  { Type' := .EC, Status := StatusUnderReview, SubmitterName := str "Jane Doe",
    SubmittedAt := 10, DueDate := 0 }

def updCase : Case := { ID := str "1", Status := StatusSubmitted, UpdatedAt := 3 }

/-! ### C4: store Create semantics -/

/-- C4 counterexample: creating a case whose ID is already present returns
no error and silently replaces the stored record, contradicting the claimed
`DuplicateKey` failure. -/
theorem claim_C4_counterexample :
    ((CaseRepository.mk [caseOld] seedCounters).Create caseNew).2 = none ∧
      ((CaseRepository.mk [caseOld] seedCounters).Create caseNew).1.GetByID (str "1") =
        some caseNew ∧
      caseNew ≠ caseOld := by
  refine ⟨rfl, ?_, by decide⟩
  decide

/-- C4 (amended): `Create` inserts the record keyed by its ID, always
succeeds (it returns a nil error even when the ID is already present), and
the inserted record is what a subsequent lookup of that ID returns — an
existing record with the same ID is silently replaced, and no
`DuplicateKey` error exists. -/
theorem claim_C4_create_always_succeeds (r : CaseRepository) (c : Case) :
    (r.Create c).2 = none ∧ (r.Create c).1.GetByID c.ID = some c := by
  refine ⟨rfl, ?_⟩
  simp only [CaseRepository.Create, CaseRepository.GetByID]
  exact getByID_mapInsert r.cases c rfl

/-! ### C5: overdue classification -/

/-- C5 counterexample: a `published` case with a past due date is not
`closed`, yet neither the case's own overdue predicate nor the dashboard's
overdue count classifies it overdue — so `closed` is not the only exempt
status. -/
theorem claim_C5_counterexample :
    pubCase.DueDate < 10 ∧ pubCase.Status ≠ StatusClosed ∧
      pubCase.IsOverdue 10 = false ∧
      (DashboardService.GetStats (CaseRepository.mk [pubCase] seedCounters) 10).TotalOverdue = 0 := by
  refine ⟨by decide, by decide, by decide, ?_⟩
  decide

/-- C5 (amended): a case is classified overdue — by `Case.IsOverdue`, and
identically by `GetStats`'s overdue count, which counts exactly the stored
cases satisfying `IsOverdue` — iff its due date is non-zero and in the past
and its status is neither `closed` nor `published`; both `closed` and
`published` (not `closed` alone) are exempt. -/
theorem claim_C5_overdue_classification (r : CaseRepository) (now : Nat) (c : Case) :
    (c.IsOverdue now = true ↔
      c.DueDate ≠ 0 ∧ c.DueDate < now ∧ c.Status ≠ StatusClosed ∧
        c.Status ≠ StatusPublished) ∧
    (DashboardService.GetStats r now).TotalOverdue =
      r.cases.countP (fun x => x.IsOverdue now) := by
  constructor
  · rw [Case.IsOverdue]
    split_ifs with h0
    · simp [h0]
    · simp only [Bool.and_eq_true, decide_eq_true_eq]
      constructor
      · rintro ⟨⟨h1, h2⟩, h3⟩
        exact ⟨h0, h1, h2, h3⟩
      · rintro ⟨_, h1, h2, h3⟩
        exact ⟨⟨h1, h2⟩, h3⟩
  · simp only [DashboardService.GetStats, list_empty_filters]
    rcases hf : r.cases.foldl (statsLoop now) (0, 0, 0, 0) with ⟨o, p, v, cl⟩
    have := statsLoop_overdue now r.cases 0 0 0 0
    rw [hf] at this
    simpa using this

/-! ### C7: List filter correctness -/

/-- C7: `List(typeFilter, statusFilter, textQuery)` returns exactly the
stored cases matching all three filters: empty string is a wildcard, type
and status compare by equality, and a non-empty text query matches iff the
lower-cased concatenation of case number, summary and submitter name
contains the lower-cased query as a contiguous substring. (No ordering is
asserted.) -/
theorem claim_C7_list_filter (r : CaseRepository)
    (tf sf q : List Char) (c : Case) :
    c ∈ r.List tf sf q ↔
      c ∈ r.cases ∧
        (tf = [] ∨ c.Type'.toChars = tf) ∧
        (sf = [] ∨ c.Status = sf) ∧
        (q = [] ∨ ∃ pre post,
          strToLower (c.CaseNumber ++ c.Summary ++ c.SubmitterName) =
            pre ++ strToLower q ++ post) := by
  rw [CaseRepository.List, List.mem_filter]
  simp only [Bool.and_eq_true, Bool.or_eq_true, decide_eq_true_eq]
  rw [containsSub_iff]
  tauto

/-! ### C10: zero due dates -/

/-- C10: a case whose due date is the zero time is never overdue (whatever
its status and the current time), and every deadline entry `GetDeadlines`
returns is built from a stored case with a non-zero due date (and a
non-closed status) — zero-due-date cases never surface as deadlines. -/
theorem claim_C10_zero_due (r : CaseRepository) (now limit : Nat)
    (c : Case) (d : Deadline) :
    (c.DueDate = 0 → c.IsOverdue now = false) ∧
    (d ∈ r.GetDeadlines now limit →
      ∃ c0, c0 ∈ r.cases ∧ c0.DueDate ≠ 0 ∧ c0.Status ≠ StatusClosed ∧
        d = mkDeadline now c0) := by
  constructor
  · intro h
    simp [Case.IsOverdue, h]
  · intro hd
    rcases getDeadlinesAux_mem now limit r.cases [] d hd with h | h
    · simp at h
    · exact h

/-- C10 witness: concrete instances of both parts — the zero-due case is
not overdue at time 10, and the one deadline returned for a repository
holding `dueCase` comes from `dueCase`. -/
theorem claim_C10_zero_due_witness :
    zeroDueCase.IsOverdue 10 = false ∧
      (∃ c0, c0 ∈ (CaseRepository.mk [dueCase] seedCounters).cases ∧
        c0.DueDate ≠ 0 ∧ c0.Status ≠ StatusClosed ∧
        mkDeadline 10 dueCase = mkDeadline 10 c0) := by
  constructor
  · exact (claim_C10_zero_due repo0 10 5 zeroDueCase (mkDeadline 10 dueCase)).1 rfl
  · exact (claim_C10_zero_due (CaseRepository.mk [dueCase] seedCounters) 10 5
      zeroDueCase (mkDeadline 10 dueCase)).2 (by decide)

/-! ### C2: due-date computation at creation -/

/-- C2: `CaseService.Create` stores the record it builds; for Advisory
Opinion cases the stored due date is the business-day computation over 45
days from the submission instant (hence strictly more than 45 and at most
67 calendar days after it), for Public Records Requests the same
computation over 5 days, and for Ethics Complaint / Ethics Acknowledgment
cases the due date stays zero-valued. -/
theorem claim_C2_due_dates (r : CaseRepository) (c : Case) (now year : Nat) :
    ((CaseService.Create r c now year).1.GetByID
        (CaseService.Create r c now year).2.1.ID =
      some (CaseService.Create r c now year).2.1) ∧
    (c.Type' = .AO →
      (CaseService.Create r c now year).2.1.DueDate =
          calculateBusinessDays c.SubmittedAt 45 ∧
        c.SubmittedAt + 45 < (CaseService.Create r c now year).2.1.DueDate ∧
        (CaseService.Create r c now year).2.1.DueDate ≤ c.SubmittedAt + 67) ∧
    (c.Type' = .PRR →
      (CaseService.Create r c now year).2.1.DueDate =
        calculateBusinessDays c.SubmittedAt 5) ∧
    ((c.Type' = .EC ∨ c.Type' = .EA) → c.DueDate = 0 →
      (CaseService.Create r c now year).2.1.DueDate = 0) := by
  refine ⟨?_, ?_, ?_, ?_⟩
  · simp only [CaseService.Create, CaseRepository.NextCaseNumber,
      CaseRepository.Create, CaseRepository.GetByID]
    exact getByID_mapInsert _ _ rfl
  · intro h
    have hdue : (CaseService.Create r c now year).2.1.DueDate =
        calculateBusinessDays c.SubmittedAt 45 := by
      simp [CaseService.Create, CaseRepository.NextCaseNumber,
        CaseRepository.Create, h]
    have hb := calculateBusinessDays_45_bounds c.SubmittedAt
    exact ⟨hdue, by omega, by omega⟩
  · intro h
    simp [CaseService.Create, CaseRepository.NextCaseNumber,
      CaseRepository.Create, h]
  · rintro (h | h) h0 <;>
      simp [CaseService.Create, CaseRepository.NextCaseNumber,
        CaseRepository.Create, h, h0]

/-- C2 witness: the Advisory Opinion clause at a concrete creation. -/
theorem claim_C2_due_dates_witness :
    (CaseService.Create repo0 aoCase 100 2024).2.1.DueDate =
        calculateBusinessDays 10 45 ∧
      10 + 45 < (CaseService.Create repo0 aoCase 100 2024).2.1.DueDate ∧
      (CaseService.Create repo0 aoCase 100 2024).2.1.DueDate ≤ 10 + 67 :=
  (claim_C2_due_dates repo0 aoCase 100 2024).2.1 rfl

/-! ### C3: which fields Create assigns -/

/-- C3 counterexample: `Create` does not set the status to `submitted` — it
keeps whatever status the caller passed (the HTTP handlers, not the
service, set `submitted`). Creating a record whose status is
`under_review` and reading it back yields `under_review`. -/
theorem claim_C3_counterexample :
    ((CaseService.Create repo0 ecCase 100 2024).1.GetByID
        (str "case_" ++ natChars 100)).map Case.Status = some StatusUnderReview ∧
      StatusUnderReview ≠ StatusSubmitted := by
  refine ⟨?_, by decide⟩
  decide

/-- C3 (amended): `Create(c)` followed by `GetByID` of the new ID returns a
record identical to `c` except for the service-assigned fields, which are
only ID, CaseNumber, CreatedAt, UpdatedAt and (for AO/PRR) DueDate; the
Status — like every other caller-supplied field, including SubmittedAt — is
preserved as passed in, not forced to `submitted`. -/
theorem claim_C3_create_preserved_fields (r : CaseRepository) (c : Case)
    (now year : Nat) :
    (CaseService.Create r c now year).2.2.2 = none ∧
    ((CaseService.Create r c now year).1.GetByID
        (CaseService.Create r c now year).2.1.ID =
      some (CaseService.Create r c now year).2.1) ∧
    (CaseService.Create r c now year).2.1.ID = str "case_" ++ natChars now ∧
    (CaseService.Create r c now year).2.1.CaseNumber =
      (CaseService.Create r c now year).2.2.1 ∧
    (CaseService.Create r c now year).2.1.CreatedAt = now ∧
    (CaseService.Create r c now year).2.1.UpdatedAt = now ∧
    (CaseService.Create r c now year).2.1.Status = c.Status ∧
    (CaseService.Create r c now year).2.1.Type' = c.Type' ∧
    (CaseService.Create r c now year).2.1.SubmitterName = c.SubmitterName ∧
    (CaseService.Create r c now year).2.1.SubmitterTitle = c.SubmitterTitle ∧
    (CaseService.Create r c now year).2.1.SubmitterAgency = c.SubmitterAgency ∧
    (CaseService.Create r c now year).2.1.SubmitterEmail = c.SubmitterEmail ∧
    (CaseService.Create r c now year).2.1.SubmitterPhone = c.SubmitterPhone ∧
    (CaseService.Create r c now year).2.1.SubjectName = c.SubjectName ∧
    (CaseService.Create r c now year).2.1.SubjectTitle = c.SubjectTitle ∧
    (CaseService.Create r c now year).2.1.SubjectAgency = c.SubjectAgency ∧
    (CaseService.Create r c now year).2.1.Summary = c.Summary ∧
    (CaseService.Create r c now year).2.1.Description = c.Description ∧
    (CaseService.Create r c now year).2.1.StatuteCitations = c.StatuteCitations ∧
    (CaseService.Create r c now year).2.1.SubmittedAt = c.SubmittedAt ∧
    (CaseService.Create r c now year).2.1.ClosedAt = c.ClosedAt ∧
    (CaseService.Create r c now year).2.1.PublishedAt = c.PublishedAt ∧
    (CaseService.Create r c now year).2.1.AssignedTo = c.AssignedTo ∧
    (CaseService.Create r c now year).2.1.AssignedToName = c.AssignedToName ∧
    (CaseService.Create r c now year).2.1.IsPublic = c.IsPublic ∧
    (CaseService.Create r c now year).2.1.IsConfidential = c.IsConfidential ∧
    (CaseService.Create r c now year).2.1.Priority = c.Priority ∧
    (CaseService.Create r c now year).2.1.Tags = c.Tags := by
  refine ⟨rfl, ?_, rfl, rfl, rfl, rfl, rfl, rfl, rfl, rfl, rfl, rfl, rfl, rfl,
    rfl, rfl, rfl, rfl, rfl, rfl, rfl, rfl, rfl, rfl, rfl, rfl, rfl, rfl⟩
  simp only [CaseService.Create, CaseRepository.NextCaseNumber,
    CaseRepository.Create, CaseRepository.GetByID]
  exact getByID_mapInsert _ _ rfl

/-! ### C6: status updates -/

/-- C6: `UpdateStatus` returns a NotFound error, leaving the repository
unchanged, exactly when the ID is absent; otherwise it accepts any status
value without validation, persists the record with the new status and the
update timestamp, and — whenever the clock has advanced past the stored
UpdatedAt — the new UpdatedAt is strictly later than the old one. -/
theorem claim_C6_update_status (r : CaseRepository) (id : List Char)
    (st : CaseStatus) (now : Nat) :
    (r.GetByID id = none →
      CaseService.UpdateStatus r id st now =
        (r, some (str "case not found: " ++ id))) ∧
    (∀ c, r.GetByID id = some c →
      (CaseService.UpdateStatus r id st now).2 = none ∧
      (CaseService.UpdateStatus r id st now).1.GetByID id =
        some { c with Status := st, UpdatedAt := now } ∧
      (c.UpdatedAt < now →
        c.UpdatedAt <
          ({ c with Status := st, UpdatedAt := now } : Case).UpdatedAt)) := by
  constructor
  · intro h
    simp [CaseService.UpdateStatus, h]
  · intro c hc
    have hc' : r.cases.find? (fun x => decide (x.ID = id)) = some c := hc
    have hcid : c.ID = id := by
      have h1 := List.find?_some hc'
      simpa using h1
    have hmem : c ∈ r.cases := List.mem_of_find?_eq_some hc'
    have hany : (r.cases.any
        (fun x => decide (x.ID = ({ c with Status := st, UpdatedAt := now } : Case).ID))) = true := by
      rw [List.any_eq_true]
      refine ⟨c, hmem, ?_⟩
      show decide (c.ID = ({ c with Status := st, UpdatedAt := now } : Case).ID) = true
      simp
    simp only [CaseService.UpdateStatus, hc, CaseRepository.Update]
    rw [if_pos hany]
    refine ⟨rfl, ?_, fun h => h⟩
    show (CaseRepository.mk (mapInsert r.cases _) r.counters).GetByID id = _
    simp only [CaseRepository.GetByID]
    exact getByID_mapInsert _ _ hcid

/-- C6 witness: updating an existing case at a later clock instant. -/
theorem claim_C6_update_status_witness :
    (CaseService.UpdateStatus (CaseRepository.mk [updCase] seedCounters)
        (str "1") StatusUnderReview 5).2 = none ∧
      (CaseService.UpdateStatus (CaseRepository.mk [updCase] seedCounters)
          (str "1") StatusUnderReview 5).1.GetByID (str "1") =
        some { updCase with Status := StatusUnderReview, UpdatedAt := 5 } ∧
      updCase.UpdatedAt <
        ({ updCase with Status := StatusUnderReview, UpdatedAt := 5 } : Case).UpdatedAt := by
  have h := (claim_C6_update_status (CaseRepository.mk [updCase] seedCounters)
    (str "1") StatusUnderReview 5).2 updCase (by decide)
  exact ⟨h.1, h.2.1, h.2.2 (by decide)⟩

/-! ### C8: monotonic numbering -/

/-- C8: under sequential calls, the numeric suffixes of successive case
numbers for one type are strictly increasing — each call increments the
type-scoped counter by exactly one (the final counter is the initial one
plus the number of calls, never reset), and the i-th call's suffix is the
initial counter plus `i + 1`. -/
theorem claim_C8_monotonic_numbering (r : CaseRepository) (T : CaseType)
    (ys : List Nat) :
    (runCalls r T ys).2.counters T = r.counters T + ys.length ∧
    (∀ i s, ((runCalls r T ys).1).get? i = some s →
      numericSuffix s = r.counters T + i + 1) ∧
    (∀ i j si sj, i < j →
      ((runCalls r T ys).1).get? i = some si →
      ((runCalls r T ys).1).get? j = some sj →
      numericSuffix si < numericSuffix sj) := by
  have hget : ∀ i s, ((runCalls r T ys).1).get? i = some s →
      numericSuffix s = r.counters T + i + 1 := by
    intro i s hs
    rw [runCalls_get?] at hs
    rcases Option.map_eq_some'.mp hs with ⟨y, _, rfl⟩
    exact numericSuffix_format T y _
  refine ⟨runCalls_counters T ys r, hget, ?_⟩
  intro i j si sj hij hi hj
  rw [hget i si hi, hget j sj hj]
  omega

/-- C8 witness: two sequential calls from the seeded counters. -/
theorem claim_C8_monotonic_numbering_witness :
    (runCalls repo0 CaseType.AO [2024, 2025]).2.counters CaseType.AO =
        repo0.counters CaseType.AO + 2 ∧
      numericSuffix (formatCaseNumber CaseType.AO 2024 43) <
        numericSuffix (formatCaseNumber CaseType.AO 2025 44) := by
  have h := claim_C8_monotonic_numbering repo0 CaseType.AO [2024, 2025]
  refine ⟨h.1, ?_⟩
  exact h.2.2 0 1 (formatCaseNumber CaseType.AO 2024 43)
    (formatCaseNumber CaseType.AO 2025 44) (by norm_num) (by decide) (by decide)

/-! ### C9: case-number format -/

theorem exists_len_four {l : List Char} (h : l.length = 4) :
    ∃ a b c d, l = [a, b, c, d] := by
  rcases l with _ | ⟨a, _ | ⟨b, _ | ⟨c, _ | ⟨d, _ | ⟨e, t⟩⟩⟩⟩⟩ <;> simp_all

theorem tailOK_digits {a b c d e f g : Char}
    (ha : a.isDigit = true) (hb : b.isDigit = true) (hc : c.isDigit = true)
    (hd : d.isDigit = true) (he : e.isDigit = true) (hf : f.isDigit = true)
    (hg : g.isDigit = true) :
    tailOK ('-' :: a :: b :: c :: d :: '-' :: e :: f :: g :: []) = true := by
  simp [tailOK, ha, hb, hc, hd, he, hf, hg]

theorem matchesCaseNumberFormat_of (T : CaseType) {year n : Nat}
    (h1 : 1000 ≤ year) (h2 : year < 10000) (h3 : n ≤ 999) :
    matchesCaseNumberFormat (formatCaseNumber T year n) = true := by
  obtain ⟨a, b, c, d, hy⟩ := exists_len_four (natChars_len_four h1 h2)
  obtain ⟨e, f, g, hp⟩ := List.length_eq_three.mp (pad3_length h3)
  have ha : a.isDigit = true := natChars_all_digits (by rw [hy]; simp)
  have hb : b.isDigit = true := natChars_all_digits (by rw [hy]; simp)
  have hcc : c.isDigit = true := natChars_all_digits (by rw [hy]; simp)
  have hd : d.isDigit = true := natChars_all_digits (by rw [hy]; simp)
  have he : e.isDigit = true := pad3_all_digits (by rw [hp]; simp)
  have hf : f.isDigit = true := pad3_all_digits (by rw [hp]; simp)
  have hg : g.isDigit = true := pad3_all_digits (by rw [hp]; simp)
  have htail := tailOK_digits ha hb hcc hd he hf hg
  cases T
  · have hs : formatCaseNumber CaseType.AO year n =
        'A' :: 'O' :: '-' :: a :: b :: c :: d :: '-' :: e :: f :: g :: [] := by
      rw [formatCaseNumber, hy, hp]; rfl
    have hpre : (str "AO").isPrefixOf
        ('A' :: 'O' :: '-' :: a :: b :: c :: d :: '-' :: e :: f :: g :: []) = true := by
      rw [isPrefixOf_iff]; exact ⟨_, rfl⟩
    rw [hs, matchesCaseNumberFormat]
    simp [hpre, htail]
  · have hs : formatCaseNumber CaseType.EC year n =
        'E' :: 'C' :: '-' :: a :: b :: c :: d :: '-' :: e :: f :: g :: [] := by
      rw [formatCaseNumber, hy, hp]; rfl
    have hpre : (str "EC").isPrefixOf
        ('E' :: 'C' :: '-' :: a :: b :: c :: d :: '-' :: e :: f :: g :: []) = true := by
      rw [isPrefixOf_iff]; exact ⟨_, rfl⟩
    rw [hs, matchesCaseNumberFormat]
    simp [hpre, htail]
  · have hs : formatCaseNumber CaseType.EA year n =
        'E' :: 'A' :: '-' :: a :: b :: c :: d :: '-' :: e :: f :: g :: [] := by
      rw [formatCaseNumber, hy, hp]; rfl
    have hpre : (str "EA").isPrefixOf
        ('E' :: 'A' :: '-' :: a :: b :: c :: d :: '-' :: e :: f :: g :: []) = true := by
      rw [isPrefixOf_iff]; exact ⟨_, rfl⟩
    rw [hs, matchesCaseNumberFormat]
    simp [hpre, htail]
  · have hs : formatCaseNumber CaseType.PRR year n =
        'P' :: 'R' :: 'R' :: '-' :: a :: b :: c :: d :: '-' :: e :: f :: g :: [] := by
      rw [formatCaseNumber, hy, hp]; rfl
    have hpre : (str "PRR").isPrefixOf
        ('P' :: 'R' :: 'R' :: '-' :: a :: b :: c :: d :: '-' :: e :: f :: g :: []) = true := by
      rw [isPrefixOf_iff]; exact ⟨_, rfl⟩
    rw [hs, matchesCaseNumberFormat]
    simp [hpre, htail]

/-- C9 counterexample: from the seeded counters (EA starts at 156), 843
calls drive the EA counter to 999, and the next call returns
`EA-2024-1000`, whose four-digit suffix breaks the documented pattern
`^(AO|EC|EA|PRR)-\d{4}-\d{3}$` — so the format does not hold for every
reachable counter state. -/
theorem claim_C9_counterexample :
    matchesCaseNumberFormat
      (((runCalls repo0 CaseType.EA (List.replicate 843 2024)).2).NextCaseNumber
        CaseType.EA 2024).1 = false := by
  have hc : (runCalls repo0 CaseType.EA (List.replicate 843 2024)).2.counters
      CaseType.EA = 999 := by
    rw [runCalls_counters, List.length_replicate]
    decide
  rw [nextCaseNumber_fst, hc]
  decide

/-- C9 (amended): a string returned by `NextCaseNumber` matches
`^(AO|EC|EA|PRR)-\d{4}-\d{3}$` whenever the current year has four digits and
the post-increment counter is at most 999; since the counters are
lifetime-cumulative and never reset, states beyond 999 are reachable and
produce four-digit suffixes outside the pattern. -/
theorem claim_C9_format_amended (r : CaseRepository) (T : CaseType)
    (year : Nat) (h1 : 1000 ≤ year) (h2 : year < 10000)
    (h3 : r.counters T + 1 ≤ 999) :
    matchesCaseNumberFormat (r.NextCaseNumber T year).1 = true := by
  rw [nextCaseNumber_fst]
  exact matchesCaseNumberFormat_of T h1 h2 h3

/-- C9 witness: the first PRR number from the seeded counters (suffix 090)
matches the pattern. -/
theorem claim_C9_format_amended_witness :
    matchesCaseNumberFormat (repo0.NextCaseNumber CaseType.PRR 2024).1 = true :=
  claim_C9_format_amended repo0 CaseType.PRR 2024 (by norm_num) (by norm_num)
    (by decide)

end NCOE
